import Mathlib

/-!
Verification development for the Pulsaar secure read-only file-access
subsystem.  The definitions below are shallow embeddings of the Go source
(`cmd/agent/main.go`, `cmd/cli/main.go`) together with models of the Go
standard-library functions those files call (`path/filepath.Clean`,
`strings.Split`, `strings.TrimSpace`, `strings.HasPrefix`, and the
read behaviour of `os.File` on regular files).  Strings are Lean `String`s,
byte contents are `List Nat`, and 64-bit integers are `Int` (no arithmetic
in the embedded code can overflow 64 bits for the inputs considered).
-/

/-- Split a string at every occurrence of the separator character,
keeping empty segments, as Go `strings.Split(s, sep)` does for a one-byte
separator.  Auxiliary worker carrying the current (reversed) segment. -/
def splitCharAux (sep : Char) : List Char → List Char → List String
  | [], acc => [String.mk acc.reverse]
  | c :: cs, acc =>
      if c == sep then String.mk acc.reverse :: splitCharAux sep cs []
      else splitCharAux sep cs (c :: acc)

/-- Split a string on a separator character (Go `strings.Split` with a
single-character separator). -/
def splitChar (sep : Char) (s : String) : List String :=
  splitCharAux sep s.data []

/-- Join path segments with the separator `/` (the reassembly step of
`filepath.Clean`). -/
def joinSegs : List String → String
  | [] => ""
  | [s] => s
  | s :: rest => s ++ "/" ++ joinSegs rest

/-- Whether the path begins with the path separator, as in Go
`path/filepath`: `os.IsPathSeparator(path[0])` on Unix. -/
def isRooted (p : String) : Bool :=
  match p.data with
  | [] => false
  | c :: _ => c == '/'

/-- One step of the element processing of Go `path/filepath.Clean` (Unix):
empty and `.` elements are skipped; `..` pops the previously kept element
when one exists and is not itself `..`, is discarded at the root of a
rooted path, and is kept for a relative path with nothing left to pop;
every other element is kept.  The stack holds kept elements most recent
first. -/
def cleanPush (rooted : Bool) (stack : List String) (seg : String) : List String :=
  if seg = "" ∨ seg = "." then stack
  else if seg = ".." then
    match stack with
    | [] => if rooted then [] else [".."]
    | top :: rest => if top = ".." then ".." :: top :: rest else rest
  else seg :: stack

/-- Model of Go `path/filepath.Clean` on Unix: returns the shortest
lexically equivalent path, resolving `.` and `..` elements and collapsing
separators; the empty path cleans to `.`. -/
def clean (path : String) : String :=
  if path = "" then "."
  else
    let rooted := isRooted path
    let stack := (splitChar '/' path).foldl (cleanPush rooted) []
    let body := joinSegs stack.reverse
    if rooted then
      if body = "" then "/" else "/" ++ body
    else
      if body = "" then "." else body

/-- Model of `isPathAllowed` from `cmd/agent/main.go`: the candidate path
is admitted iff some allow-root cleans to `/`, or the cleaned path equals
the cleaned root, or the cleaned path has the cleaned root plus `/` as a
prefix (Go `strings.HasPrefix(cleanPath, cleanRoot+"/")`). -/
def isPathAllowed (path : String) (allowedRoots : List String) : Bool :=
  let cleanPath := clean path
  allowedRoots.any fun root =>
    let cleanRoot := clean root
    cleanRoot == "/" || cleanPath == cleanRoot ||
      (cleanRoot ++ "/").data.isPrefixOf cleanPath.data

/-- Model of Go `strings.TrimSpace` restricted to the white-space
characters of `unicode.IsSpace` in the Latin-1 range. -/
def isSpaceChar (c : Char) : Bool :=
  c == ' ' || c == '\t' || c == '\n' || c == '\x0b' || c == '\x0c' ||
    c == '\r' || c == '\x85' || c == '\xa0'

/-- Trim leading and trailing white space from a string, as Go
`strings.TrimSpace`. -/
def trimSpace (s : String) : String :=
  String.mk (((s.data.dropWhile isSpaceChar).reverse.dropWhile isSpaceChar).reverse)

/-- Parse a comma-separated list of allow-roots, trimming white space
around each item, as the agent does for the annotation, config-map and
environment sources (`strings.Split` on `,` then `strings.TrimSpace`). -/
def parseRoots (raw : String) : List String :=
  (splitChar ',' raw).map trimSpace

/-- Model of the common tail of `loadAllowedRootsFromPodAnnotations` and
`loadAllowedRootsFromConfigMap` in `cmd/agent/main.go`.  The argument is
`none` when the source is absent (cluster API unreachable, object missing,
or key missing) and `some raw` when the raw string value was found; an
empty value yields the present-but-empty allow-set. -/
def loadRoots : Option String → Option (List String)
  | none => none
  | some raw => if raw = "" then some [] else some (parseRoots raw)

/-- Model of `initConfiguredAllowedRoots` from `cmd/agent/main.go`.
`ns` and `pod` are the values of `getNamespace()` and
`PULSAAR_POD_NAME`; `ann` and `cm` are the raw annotation and config-map
values (absent encoded as `none`, see `loadRoots`); `env` is the value of
`PULSAAR_ALLOWED_ROOTS` (empty string when unset, as `os.Getenv`
reports). -/
def initConfiguredAllowedRoots (ns pod : String) (ann cm : Option String)
    (env : String) : List String :=
  match (if ns = "" then none else if pod = "" then none else loadRoots ann) with
  | some roots => roots
  | none =>
    match (if ns = "" then none else loadRoots cm) with
    | some roots => roots
    | none => if env = "" then ["/"] else parseRoots env

/-- Model of Go `path/filepath.Base` (Unix): the last element of the path
after stripping trailing separators; `.` for the empty path and `/` when
the path consists entirely of separators. -/
def basename (p : String) : String :=
  if p = "" then "."
  else
    let rev := p.data.reverse.dropWhile (fun c => c == '/')
    if rev.isEmpty then "/"
    else String.mk ((rev.takeWhile (fun c => !(c == '/'))).reverse)

/-- Error kinds of the spec's error taxonomy, as gRPC status codes used by
the agent.  The agent source emits only `resourceExhausted`,
`permissionDenied`, `invalidArgument` and `internal`; `notFound` is
included so that statements about it can be expressed. -/
inductive ErrKind where
  | resourceExhausted
  | permissionDenied
  | invalidArgument
  | notFound
  | internal
deriving DecidableEq

deriving instance DecidableEq for Except

/-- File metadata as returned by the agent (`api.FileInfo`). -/
structure FileInfo where
  name : String
  isDir : Bool
  sizeBytes : Int
  mode : String
  mtime : Int
deriving DecidableEq

/-- A filesystem object: a regular file with byte contents and metadata,
or a directory with its entry list.  A directory entry is `none` when the
entry's `Info()` call would fail (such entries are skipped by List). -/
inductive FsNode where
  | file (contents : List Nat) (mode : String) (mtime : Int)
  | dir (entries : List (Option FileInfo)) (sizeBytes : Int) (mode : String) (mtime : Int)
deriving DecidableEq

/-- The local filesystem visible to the agent, as a finite association
from absolute path strings to nodes. -/
abbrev FS := List (String × FsNode)

/-- Path lookup in the modelled filesystem. -/
def fsLookup (fs : FS) (path : String) : Option FsNode :=
  List.lookup path fs

/-- Observable events of one RPC, in program order: the audit record
emitted by `auditLog`, each filesystem call (`os.ReadDir`, `os.Stat`,
`os.Open`, `File.ReadAt`/`File.Read` with the byte count it returned),
and each streamed response sent. -/
inductive Event where
  | audit (operation : String) (path : String)
  | fsReadDir (path : String)
  | fsStat (path : String)
  | fsOpen (path : String)
  | fsRead (path : String) (n : Nat)
  | send (data : List Nat) (eof : Bool)
deriving DecidableEq

/-- Request message `api.ListRequest`. -/
structure ListRequest where
  path : String
  allowedRoots : List String
deriving DecidableEq

/-- Request message `api.StatRequest`. -/
structure StatRequest where
  path : String
  allowedRoots : List String
deriving DecidableEq

/-- Request message `api.ReadRequest`. -/
structure ReadRequest where
  path : String
  offset : Int
  length : Int
  allowedRoots : List String
deriving DecidableEq

/-- Request message `api.StreamRequest`. -/
structure StreamRequest where
  path : String
  chunkSize : Int
  allowedRoots : List String
deriving DecidableEq

/-- Response message `api.ListResponse`. -/
structure ListResponse where
  entries : List FileInfo
deriving DecidableEq

/-- Response message `api.StatResponse`. -/
structure StatResponse where
  info : FileInfo
deriving DecidableEq

/-- Response message `api.ReadResponse`. -/
structure ReadResponse where
  data : List Nat
  eof : Bool
deriving DecidableEq

/-- The 1 MiB cap `maxReadSize` from `cmd/agent/main.go`. -/
def maxReadSize : Int := 1024 * 1024

/-- The `FileInfo` built by the Stat handler from an `os.Stat` result:
the name is the final path component (`filepath.Base`), the size of a
regular file is its byte length. -/
def statInfo (path : String) : FsNode → FileInfo
  | .file contents mode mtime => ⟨basename path, false, contents.length, mode, mtime⟩
  | .dir _ size mode mtime => ⟨basename path, true, size, mode, mtime⟩

/-- Model of `(*server).ListDirectory` from `cmd/agent/main.go`.  `rateOk`
is the outcome of `getLimiterForIP(ctx).Allow()`; `cfg` is the
startup-resolved `configuredAllowedRoots`.  Returns the event trace in
program order and the RPC outcome.  `os.ReadDir` fails on a missing path
or a non-directory; entries whose `Info()` fails are skipped. -/
def ListDirectory (fs : FS) (cfg : List String) (rateOk : Bool)
    (req : ListRequest) : List Event × Except ErrKind ListResponse :=
  if !rateOk then ([], .error .resourceExhausted)
  else
    let tr := [Event.audit "ListDirectory" req.path]
    let roots := if req.allowedRoots.isEmpty then cfg else req.allowedRoots
    if !isPathAllowed req.path roots then (tr, .error .permissionDenied)
    else
      match fsLookup fs req.path with
      | some (FsNode.dir entries _ _ _) =>
          (tr ++ [Event.fsReadDir req.path], .ok ⟨entries.filterMap id⟩)
      | _ => (tr ++ [Event.fsReadDir req.path], .error .internal)

/-- Model of `(*server).Stat` from `cmd/agent/main.go`.  `os.Stat` fails
on a missing path; any such failure is surfaced as `internal`. -/
def Stat (fs : FS) (cfg : List String) (rateOk : Bool)
    (req : StatRequest) : List Event × Except ErrKind StatResponse :=
  if !rateOk then ([], .error .resourceExhausted)
  else
    let tr := [Event.audit "Stat" req.path]
    let roots := if req.allowedRoots.isEmpty then cfg else req.allowedRoots
    if !isPathAllowed req.path roots then (tr, .error .permissionDenied)
    else
      match fsLookup fs req.path with
      | some node => (tr ++ [Event.fsStat req.path], .ok ⟨statInfo req.path node⟩)
      | none => (tr ++ [Event.fsStat req.path], .error .internal)

/-- Model of `(*server).ReadFile` from `cmd/agent/main.go`.  `os.Open`
fails on a missing path (surfaced as `internal`); `File.ReadAt` on a
regular file returns the requested slice and reports `io.EOF` exactly
when fewer bytes than requested were available, and fails with a
non-`io.EOF` error on a negative offset or a directory.  A negative
`length` would make the Go `make` call panic and is outside the model
(every theorem below uses a non-negative length). -/
def ReadFile (fs : FS) (cfg : List String) (rateOk : Bool)
    (req : ReadRequest) : List Event × Except ErrKind ReadResponse :=
  if !rateOk then ([], .error .resourceExhausted)
  else
    let tr := [Event.audit "ReadFile" req.path]
    let roots := if req.allowedRoots.isEmpty then cfg else req.allowedRoots
    if !isPathAllowed req.path roots then (tr, .error .permissionDenied)
    else
      let readLen := if req.length = 0 then maxReadSize else req.length
      if maxReadSize < readLen then (tr, .error .invalidArgument)
      else
        match fsLookup fs req.path with
        | none => (tr ++ [Event.fsOpen req.path], .error .internal)
        | some (FsNode.dir _ _ _ _) =>
            (tr ++ [Event.fsOpen req.path, Event.fsRead req.path 0], .error .internal)
        | some (FsNode.file contents _ _) =>
            if req.offset < 0 then
              (tr ++ [Event.fsOpen req.path, Event.fsRead req.path 0], .error .internal)
            else
              let o := req.offset.toNat
              let n := readLen.toNat
              let bytes := (contents.drop o).take n
              let isEof := decide (bytes.length < n) || decide (contents.length < o + n)
              (tr ++ [Event.fsOpen req.path, Event.fsRead req.path bytes.length],
                .ok ⟨bytes, isEof⟩)

/-- The read loop of `(*server).StreamFile`, on a regular file whose
remaining contents are the list argument, fuelled for termination (the
initial contents length is always sufficient fuel, since every iteration
consumes at least one byte — `cs ≥ 1` at every call site).  `File.Read`
on a regular file returns the next `min cs remaining` bytes with no error
while bytes remain, and `(0, io.EOF)` at end of file; the loop sends one
message per non-empty chunk with `eof := (err == io.EOF)` — hence `false`
on every sent message — and breaks on the zero-byte read. -/
def streamEventsFuel (path : String) (cs : Nat) : Nat → List Nat → List Event
  | _, [] => [Event.fsRead path 0]
  | 0, _ :: _ => []
  | fuel + 1, c :: rest =>
      let chunk := List.take cs (c :: rest)
      Event.fsRead path chunk.length :: Event.send chunk false ::
        streamEventsFuel path cs fuel (List.drop (cs - 1) rest)

/-- The event trace of the StreamFile read loop on a regular file. -/
def streamEvents (path : String) (cs : Nat) (contents : List Nat) : List Event :=
  streamEventsFuel path cs contents.length contents

/-- Model of `(*server).StreamFile` from `cmd/agent/main.go`.  Returns
the event trace and `some kind` when the handler returns a non-nil error
status, `none` on success.  A negative `chunkSize` would make the Go
`make` call panic and is outside the model. -/
def StreamFile (fs : FS) (cfg : List String) (rateOk : Bool)
    (req : StreamRequest) : List Event × Option ErrKind :=
  if !rateOk then ([], some .resourceExhausted)
  else
    let tr := [Event.audit "StreamFile" req.path]
    let roots := if req.allowedRoots.isEmpty then cfg else req.allowedRoots
    if !isPathAllowed req.path roots then (tr, some .permissionDenied)
    else
      let chunkSize := if req.chunkSize = 0 then 64 * 1024 else req.chunkSize
      if maxReadSize < chunkSize then (tr, some .invalidArgument)
      else
        match fsLookup fs req.path with
        | none => (tr ++ [Event.fsOpen req.path], some .internal)
        | some (FsNode.dir _ _ _ _) =>
            (tr ++ [Event.fsOpen req.path, Event.fsRead req.path 0], some .internal)
        | some (FsNode.file contents _ _) =>
            (tr ++ Event.fsOpen req.path :: streamEvents req.path chunkSize.toNat contents,
              none)

/-- The streamed responses contained in an event trace, in send order. -/
def sendsOf (tr : List Event) : List (List Nat × Bool) :=
  tr.filterMap fun e =>
    match e with
    | .send d b => some (d, b)
    | _ => none

/-- Concatenation of the data of all streamed responses, in send order. -/
def sentData (tr : List Event) : List Nat :=
  ((sendsOf tr).map Prod.fst).flatten

/-- Whether an event is the emission of an audit record. -/
def isAuditEvent : Event → Bool
  | .audit _ _ => true
  | _ => false

/-- Whether an event is a filesystem call. -/
def isFsEvent : Event → Bool
  | .fsReadDir _ => true
  | .fsStat _ => true
  | .fsOpen _ => true
  | .fsRead _ _ => true
  | _ => false

/-- The StatRequest built by the CLI `stat` command (`runStat` in
`cmd/cli/main.go`): the allow-override is the literal list `["/"]`. -/
def runStatRequest (path : String) : StatRequest :=
  ⟨path, ["/"]⟩

/-- The ReadRequest built by the CLI `read` command (`runRead` in
`cmd/cli/main.go`): offset 0, length 0, empty allow-override. -/
def runReadRequest (path : String) : ReadRequest :=
  ⟨path, 0, 0, []⟩

/-- The StreamRequest built by the CLI `stream` command (`runStream` in
`cmd/cli/main.go`): empty allow-override. -/
def runStreamRequest (path : String) (chunkSize : Int) : StreamRequest :=
  ⟨path, chunkSize, []⟩

/-- The ListRequest built by the CLI `explore` command (`runExplore` in
`cmd/cli/main.go`): empty allow-override. -/
def runExploreRequest (path : String) : ListRequest :=
  ⟨path, []⟩

/-- Helper: characterisation of `isPathAllowed` in terms of the cleaned
path and each cleaned allow-root. -/
theorem isPathAllowed_iff (path : String) (roots : List String) :
    isPathAllowed path roots = true ↔
      ∃ r ∈ roots, clean r = "/" ∨ clean path = clean r ∨
        (clean r ++ "/").data.isPrefixOf (clean path).data = true := by
  unfold isPathAllowed
  simp [List.any_eq_true, Bool.or_eq_true, beq_iff_eq, or_assoc]

/-- Helper: a string extended with the separator is never a prefix of the
one-character string made of a dot. -/
theorem sep_extended_not_pre_of_dot (s : String) :
    ((s ++ "/").data.isPrefixOf ['.']) = false := by
  rw [String.data_append]
  cases h : s.data with
  | nil => decide
  | cons c cs =>
      cases cs with
      | nil => simp [List.isPrefixOf]
      | cons d ds => simp [List.isPrefixOf]

/-- C1: a candidate path is admitted iff its lexically normalized form
equals some normalized root, or begins with that root followed by the
path separator, or some root normalizes to the filesystem root; and in
particular `/a/../etc/passwd` is denied under the allow-set containing
only `/a`, `/appfile` is denied under the one containing only `/app`,
and `/app/file` is admitted under it. -/
theorem c1_path_policy_matching :
    (∀ (path : String) (roots : List String),
        isPathAllowed path roots = true ↔
          ∃ r ∈ roots, clean r = "/" ∨ clean path = clean r ∨
            (clean r ++ "/").data.isPrefixOf (clean path).data = true)
    ∧ isPathAllowed "/a/../etc/passwd" ["/a"] = false
    ∧ isPathAllowed "/appfile" ["/app"] = false
    ∧ isPathAllowed "/app/file" ["/app"] = true :=
  ⟨isPathAllowed_iff, by decide, by decide, by decide⟩

/-- C9 counterexample: the empty path is admitted when the allow-set
contains the filesystem root, because a root that cleans to `/` admits
every candidate, so the claim that the empty path is always rejected is
false at this input. -/
theorem c9_empty_path_counterexample :
    isPathAllowed "" ["/"] = true := by decide

/-- C9 amended: the empty path is rejected unless some allow-root cleans
to the filesystem root `/` (which admits everything) or to `.` (which
equals the cleaned empty path); in particular the empty path is rejected
under every allow-set whose roots all clean to other values. -/
theorem c9_empty_path_amended (roots : List String) :
    isPathAllowed "" roots = true ↔
      ∃ r ∈ roots, clean r = "/" ∨ clean r = "." := by
  rw [isPathAllowed_iff]
  have hempty : clean "" = "." := rfl
  constructor
  · rintro ⟨r, hr, h | h | h⟩
    · exact ⟨r, hr, Or.inl h⟩
    · exact ⟨r, hr, Or.inr (by rw [hempty] at h; exact h.symm)⟩
    · rw [hempty] at h
      rw [sep_extended_not_pre_of_dot (clean r)] at h
      cases h
  · rintro ⟨r, hr, h | h⟩
    · exact ⟨r, hr, Or.inl h⟩
    · exact ⟨r, hr, Or.inr (Or.inl (by rw [hempty, h]))⟩

/-- C6: the effective policy is resolved in strict priority order —
workload annotation (consulted when the agent knows its namespace and pod
name), then the `pulsaar-config` object's `allowed-roots` key (consulted
when the namespace is known), then the `PULSAAR_ALLOWED_ROOTS`
environment variable parsed as a comma-separated whitespace-trimmed list,
then the default allow-set containing only `/` — the first present source
winning; in particular an annotation value `/a` yields effective policy
`["/a"]` even when the environment variable is set to `/b`. -/
theorem c6_policy_source_priority (ns pod : String) (ann cm : Option String)
    (env : String) :
    (ns ≠ "" → pod ≠ "" → ∀ r, loadRoots ann = some r →
        initConfiguredAllowedRoots ns pod ann cm env = r)
    ∧ (ann = none → ns ≠ "" → ∀ r, loadRoots cm = some r →
        initConfiguredAllowedRoots ns pod ann cm env = r)
    ∧ (ann = none → cm = none → env ≠ "" →
        initConfiguredAllowedRoots ns pod ann cm env = parseRoots env)
    ∧ (ann = none → cm = none → env = "" →
        initConfiguredAllowedRoots ns pod ann cm env = ["/"])
    ∧ (ns ≠ "" → pod ≠ "" →
        initConfiguredAllowedRoots ns pod (some "/a") cm "/b" = ["/a"]) := by
  refine ⟨?_, ?_, ?_, ?_, ?_⟩
  · intro hns hpod r hr
    unfold initConfiguredAllowedRoots
    simp [hns, hpod, hr]
  · intro hann hns r hr
    unfold initConfiguredAllowedRoots
    simp [hann, hns, hr, show loadRoots none = none from rfl]
  · intro hann hcm henv
    unfold initConfiguredAllowedRoots
    simp [hann, hcm, henv, show loadRoots none = none from rfl]
  · intro hann hcm henv
    unfold initConfiguredAllowedRoots
    simp [hann, hcm, henv, show loadRoots none = none from rfl]
  · intro hns hpod
    unfold initConfiguredAllowedRoots
    simp [hns, hpod, show loadRoots (some "/a") = some ["/a"] from by decide]

/-- C6 witness: with namespace `n`, pod name `p`, annotation value `/a`,
no config-map value and environment value `/b`, the effective policy is
`["/a"]`. -/
theorem c6_policy_source_priority_witness :
    initConfiguredAllowedRoots "n" "p" (some "/a") none "/b" = ["/a"] :=
  (c6_policy_source_priority "n" "p" (some "/a") none "/b").2.2.2.2
    (by decide) (by decide)

/-- Helper: an allow-set containing the filesystem root admits every
candidate path. -/
theorem root_slash_admits (path : String) : isPathAllowed path ["/"] = true :=
  rfl

/-- C10: the CLI `stat` command always sends the allow-override `["/"]`
while `read`, `stream` and `explore` send an empty override; since the
agent treats a non-empty request override as authoritative, a CLI-issued
Stat is evaluated against the allow-set containing only `/` — its outcome
is independent of the agent's configured effective policy and it is never
denied by the path policy. -/
theorem c10_cli_stat_override (path : String) (chunkSize : Int) :
    (runStatRequest path).allowedRoots = ["/"]
    ∧ (runReadRequest path).allowedRoots = []
    ∧ (runStreamRequest path chunkSize).allowedRoots = []
    ∧ (runExploreRequest path).allowedRoots = []
    ∧ (∀ (fs : FS) (cfg cfg' : List String),
        Stat fs cfg true (runStatRequest path) = Stat fs cfg' true (runStatRequest path))
    ∧ (∀ (fs : FS) (cfg : List String),
        (Stat fs cfg true (runStatRequest path)).2 ≠ .error .permissionDenied) := by
  refine ⟨rfl, rfl, rfl, rfl, fun fs cfg cfg' => rfl, fun fs cfg => ?_⟩
  unfold Stat runStatRequest
  simp [root_slash_admits]
  cases fsLookup fs path <;> simp

/-- Helper: ListDirectory is rejected with permissionDenied exactly when
the effective allow-set does not admit the path. -/
theorem ListDirectory_pd_iff (fs : FS) (cfg : List String) (req : ListRequest) :
    (ListDirectory fs cfg true req).2 = .error .permissionDenied ↔
      isPathAllowed req.path
        (if req.allowedRoots.isEmpty then cfg else req.allowedRoots) = false := by
  unfold ListDirectory
  dsimp only
  cases hb : isPathAllowed req.path
      (if req.allowedRoots.isEmpty then cfg else req.allowedRoots)
  · simp
  · simp
    split <;> simp

/-- Helper: Stat is rejected with permissionDenied exactly when the
effective allow-set does not admit the path. -/
theorem Stat_pd_iff (fs : FS) (cfg : List String) (req : StatRequest) :
    (Stat fs cfg true req).2 = .error .permissionDenied ↔
      isPathAllowed req.path
        (if req.allowedRoots.isEmpty then cfg else req.allowedRoots) = false := by
  unfold Stat
  dsimp only
  cases hb : isPathAllowed req.path
      (if req.allowedRoots.isEmpty then cfg else req.allowedRoots)
  · simp
  · simp
    split <;> simp

/-- Helper: ReadFile is rejected with permissionDenied exactly when the
effective allow-set does not admit the path. -/
theorem ReadFile_pd_iff (fs : FS) (cfg : List String) (req : ReadRequest) :
    (ReadFile fs cfg true req).2 = .error .permissionDenied ↔
      isPathAllowed req.path
        (if req.allowedRoots.isEmpty then cfg else req.allowedRoots) = false := by
  unfold ReadFile
  dsimp only
  cases hb : isPathAllowed req.path
      (if req.allowedRoots.isEmpty then cfg else req.allowedRoots)
  · simp
  · simp
    repeat' split
    all_goals simp

/-- Helper: StreamFile is rejected with permissionDenied exactly when the
effective allow-set does not admit the path. -/
theorem StreamFile_pd_iff (fs : FS) (cfg : List String) (req : StreamRequest) :
    (StreamFile fs cfg true req).2 = some .permissionDenied ↔
      isPathAllowed req.path
        (if req.allowedRoots.isEmpty then cfg else req.allowedRoots) = false := by
  unfold StreamFile
  dsimp only
  cases hb : isPathAllowed req.path
      (if req.allowedRoots.isEmpty then cfg else req.allowedRoots)
  · simp
  · simp
    repeat' split
    all_goals simp

/-- C2: for each of the four data operations, the allow-set used for the
policy check is the request's `allowed_roots` list when it is non-empty
and the startup-resolved configured policy when it is empty — expressed
through the observable outcome: with the rate check passing, the request
is rejected with `permissionDenied` exactly when that allow-set does not
admit the path. -/
theorem c2_allow_set_selection (fs : FS) (cfg roots : List String)
    (p : String) (off len cs : Int) :
    ((ListDirectory fs cfg true ⟨p, roots⟩).2 = .error .permissionDenied ↔
        isPathAllowed p (if roots.isEmpty then cfg else roots) = false)
    ∧ ((Stat fs cfg true ⟨p, roots⟩).2 = .error .permissionDenied ↔
        isPathAllowed p (if roots.isEmpty then cfg else roots) = false)
    ∧ ((ReadFile fs cfg true ⟨p, off, len, roots⟩).2 = .error .permissionDenied ↔
        isPathAllowed p (if roots.isEmpty then cfg else roots) = false)
    ∧ ((StreamFile fs cfg true ⟨p, cs, roots⟩).2 = some .permissionDenied ↔
        isPathAllowed p (if roots.isEmpty then cfg else roots) = false) :=
  ⟨ListDirectory_pd_iff fs cfg ⟨p, roots⟩,
   Stat_pd_iff fs cfg ⟨p, roots⟩,
   ReadFile_pd_iff fs cfg ⟨p, off, len, roots⟩,
   StreamFile_pd_iff fs cfg ⟨p, cs, roots⟩⟩

/-- C5: a Read request whose length exceeds 1 MiB never reaches
`os.Open` (no open event appears in its trace, whatever the rate and
policy outcomes), and when the rate check and the policy check pass it
fails with `invalidArgument`, its trace holding only the audit record. -/
theorem c5_read_length_cap (fs : FS) (cfg : List String) (rateOk : Bool)
    (req : ReadRequest) (h : maxReadSize < req.length) :
    (∀ p, Event.fsOpen p ∉ (ReadFile fs cfg rateOk req).1)
    ∧ (rateOk = true →
        isPathAllowed req.path
          (if req.allowedRoots = [] then cfg else req.allowedRoots) = true →
        ReadFile fs cfg rateOk req
          = ([Event.audit "ReadFile" req.path], .error .invalidArgument)) := by
  have hlen : ¬ req.length = 0 := by
    intro h0
    rw [h0] at h
    exact absurd h (by decide)
  constructor
  · intro p
    cases rateOk
    · unfold ReadFile
      simp
    · unfold ReadFile
      dsimp only
      simp [hlen, h]
      repeat' split
      all_goals simp
  · intro hr ha
    subst hr
    unfold ReadFile
    dsimp only
    simp [hlen, h]
    exact ha

/-- C5 witness: a Read of length 2000000 on an admitted path fails with
`invalidArgument` and opens nothing. -/
theorem c5_read_length_cap_witness :
    (∀ p, Event.fsOpen p ∉ (ReadFile [] ["/"] true ⟨"/x", 0, 2000000, []⟩).1)
    ∧ ReadFile [] ["/"] true ⟨"/x", 0, 2000000, []⟩
        = ([Event.audit "ReadFile" "/x"], .error .invalidArgument) :=
  ⟨(c5_read_length_cap [] ["/"] true ⟨"/x", 0, 2000000, []⟩ (by decide)).1,
   (c5_read_length_cap [] ["/"] true ⟨"/x", 0, 2000000, []⟩ (by decide)).2
     rfl (by decide)⟩

/-- C7 counterexample: at an admitted path that names no filesystem
object, Stat, Read and List all fail with the `internal` kind, not the
`notFound` kind the claim requires. -/
theorem c7_missing_path_counterexample :
    ((Stat [] ["/"] true ⟨"/nope", []⟩).2 = .error .internal
      ∧ ¬ (Stat [] ["/"] true ⟨"/nope", []⟩).2 = .error .notFound)
    ∧ ((ReadFile [] ["/"] true ⟨"/nope", 0, 0, []⟩).2 = .error .internal
      ∧ ¬ (ReadFile [] ["/"] true ⟨"/nope", 0, 0, []⟩).2 = .error .notFound)
    ∧ ((ListDirectory [] ["/"] true ⟨"/nope", []⟩).2 = .error .internal
      ∧ ¬ (ListDirectory [] ["/"] true ⟨"/nope", []⟩).2 = .error .notFound) := by
  decide

/-- C7 amended: for every admitted path that names no existing filesystem
object, Read (with a length within the cap), Stat and List fail with the
`internal` error kind — the agent maps all filesystem errors, including a
missing path, to `internal`, never to `notFound` or
`permissionDenied`. -/
theorem c7_missing_path_internal (fs : FS) (cfg roots : List String)
    (p : String) (off len : Int)
    (hmiss : fsLookup fs p = none)
    (hlen : len ≤ maxReadSize)
    (hallow : isPathAllowed p (if roots = [] then cfg else roots) = true) :
    (ReadFile fs cfg true ⟨p, off, len, roots⟩).2 = .error .internal
    ∧ (Stat fs cfg true ⟨p, roots⟩).2 = .error .internal
    ∧ (ListDirectory fs cfg true ⟨p, roots⟩).2 = .error .internal := by
  have hcap : ¬ maxReadSize < (if len = 0 then maxReadSize else len) := by
    split <;> omega
  refine ⟨?_, ?_, ?_⟩
  · unfold ReadFile
    dsimp only
    simp [hallow, hmiss, hcap]
  · unfold Stat
    dsimp only
    simp [hallow, hmiss]
  · unfold ListDirectory
    dsimp only
    simp [hallow, hmiss]

/-- C7 witness: the amended claim at a concrete missing path under the
default allow-set. -/
theorem c7_missing_path_internal_witness :
    (ReadFile [] ["/"] true ⟨"/absent", 0, 0, []⟩).2 = .error .internal
    ∧ (Stat [] ["/"] true ⟨"/absent", []⟩).2 = .error .internal
    ∧ (ListDirectory [] ["/"] true ⟨"/absent", []⟩).2 = .error .internal :=
  c7_missing_path_internal [] ["/"] [] "/absent" 0 0 rfl (by decide) (by decide)

/-- Helper: the stream read loop emits no audit record. -/
theorem streamEventsFuel_no_audit (p : String) (cs : Nat) :
    ∀ (fuel : Nat) (l : List Nat),
      (streamEventsFuel p cs fuel l).countP isAuditEvent = 0 := by
  intro fuel
  induction fuel with
  | zero =>
      intro l
      cases l <;> simp [streamEventsFuel, isAuditEvent]
  | succ n ih =>
      intro l
      cases l with
      | nil => simp [streamEventsFuel, isAuditEvent]
      | cons c rest =>
          simp [streamEventsFuel, List.countP_cons, isAuditEvent, ih]

/-- C8: with the rate check passing, each of the four operations emits
exactly one audit record and it is the first event of the request's trace
— in particular it precedes every filesystem event — and this holds for
policy-denied requests too: a denied Read of `/etc/shadow` under the
configured allow-set `["/app"]` produces exactly the one audit record
naming the read operation and that path. -/
theorem c8_audit_first (fs : FS) (cfg : List String) (p : String)
    (roots : List String) (off len cs : Int) :
    (∃ rest, (ListDirectory fs cfg true ⟨p, roots⟩).1
        = Event.audit "ListDirectory" p :: rest ∧ rest.countP isAuditEvent = 0)
    ∧ (∃ rest, (Stat fs cfg true ⟨p, roots⟩).1
        = Event.audit "Stat" p :: rest ∧ rest.countP isAuditEvent = 0)
    ∧ (∃ rest, (ReadFile fs cfg true ⟨p, off, len, roots⟩).1
        = Event.audit "ReadFile" p :: rest ∧ rest.countP isAuditEvent = 0)
    ∧ (∃ rest, (StreamFile fs cfg true ⟨p, cs, roots⟩).1
        = Event.audit "StreamFile" p :: rest ∧ rest.countP isAuditEvent = 0)
    ∧ ReadFile fs ["/app"] true ⟨"/etc/shadow", off, len, []⟩
        = ([Event.audit "ReadFile" "/etc/shadow"], .error .permissionDenied) := by
  refine ⟨?_, ?_, ?_, ?_, ?_⟩
  · unfold ListDirectory
    dsimp only
    repeat' split
    all_goals first
      | exact ⟨_, rfl, by simp [List.countP_cons, isAuditEvent]⟩
      | simp_all
  · unfold Stat
    dsimp only
    repeat' split
    all_goals first
      | exact ⟨_, rfl, by simp [List.countP_cons, isAuditEvent]⟩
      | simp_all
  · unfold ReadFile
    dsimp only
    repeat' split
    all_goals first
      | exact ⟨_, rfl, by simp [List.countP_cons, isAuditEvent]⟩
      | simp_all
  · unfold StreamFile
    dsimp only
    repeat' split
    all_goals first
      | exact ⟨_, rfl, by
          simp [List.countP_cons, isAuditEvent, streamEvents, streamEventsFuel_no_audit]⟩
      | simp_all
  · unfold ReadFile
    dsimp only
    simp [show isPathAllowed "/etc/shadow" ["/app"] = false from by decide]

/-- C4: for an admitted regular file and a non-negative offset, Read with
length 0 returns the bytes of the file from that offset up to 1 MiB
(1048576 bytes), and the response's eof flag is true exactly when fewer
than 1 MiB bytes were available at that offset. -/
theorem c4_read_default_length (fs : FS) (cfg roots : List String)
    (p : String) (off : Int) (contents : List Nat) (mode : String) (mtime : Int)
    (hoff : 0 ≤ off)
    (hfile : fsLookup fs p = some (.file contents mode mtime))
    (hallow : isPathAllowed p (if roots = [] then cfg else roots) = true) :
    (ReadFile fs cfg true ⟨p, off, 0, roots⟩).2 =
      .ok ⟨(contents.drop off.toNat).take 1048576,
           decide (contents.length - off.toNat < 1048576)⟩ := by
  unfold ReadFile
  dsimp only
  have hneg : ¬ off < 0 := by omega
  simp [hallow, hfile, hneg, maxReadSize]
  omega

/-- C4 witness: reading a three-byte file with length 0 at offset 0
returns all three bytes with eof true. -/
theorem c4_read_default_length_witness :
    (ReadFile [("/app/f", FsNode.file [10, 20, 30] "-rw-" 5)] [] true
        ⟨"/app/f", 0, 0, ["/app"]⟩).2 =
      .ok ⟨(([10, 20, 30] : List Nat).drop ((0 : Int)).toNat).take 1048576,
           decide (([10, 20, 30] : List Nat).length - ((0 : Int)).toNat < 1048576)⟩ :=
  c4_read_default_length [("/app/f", FsNode.file [10, 20, 30] "-rw-" 5)] [] ["/app"]
    "/app/f" 0 [10, 20, 30] "-rw-" 5 (by decide) rfl (by decide)

/-- Helper: a filesystem read event contributes nothing to the streamed
data. -/
theorem sentData_fsRead (p : String) (n : Nat) (tr : List Event) :
    sentData (Event.fsRead p n :: tr) = sentData tr := by
  simp [sentData, sendsOf]

/-- Helper: a send event contributes its data to the streamed data. -/
theorem sentData_send (d : List Nat) (b : Bool) (tr : List Event) :
    sentData (Event.send d b :: tr) = d ++ sentData tr := by
  simp [sentData, sendsOf]

/-- Helper: the concatenation of the chunks sent by the stream read loop
is exactly the file contents, for any positive chunk size and sufficient
fuel. -/
theorem streamEventsFuel_sentData (p : String) (cs : Nat) (hcs : cs ≠ 0) :
    ∀ (fuel : Nat) (l : List Nat), l.length ≤ fuel →
      sentData (streamEventsFuel p cs fuel l) = l := by
  obtain ⟨k, rfl⟩ : ∃ k, cs = k + 1 := ⟨cs - 1, by omega⟩
  intro fuel
  induction fuel with
  | zero =>
      intro l hl
      have hnil : l = [] := by
        cases l with
        | nil => rfl
        | cons c rest => simp at hl
      subst hnil
      simp [streamEventsFuel, sentData, sendsOf]
  | succ n ih =>
      intro l hl
      cases l with
      | nil => simp [streamEventsFuel, sentData, sendsOf]
      | cons c rest =>
          have hrec : (List.drop k rest).length ≤ n := by
            simp only [List.length_drop]
            simp only [List.length_cons] at hl
            omega
          rw [show streamEventsFuel p (k + 1) (n + 1) (c :: rest) =
                Event.fsRead p (List.take (k + 1) (c :: rest)).length ::
                  Event.send (List.take (k + 1) (c :: rest)) false ::
                  streamEventsFuel p (k + 1) n (List.drop k rest) from rfl]
          rw [sentData_fsRead, sentData_send, ih (List.drop k rest) hrec]
          rw [show List.take (k + 1) (c :: rest) = c :: List.take k rest from rfl]
          simp [List.take_append_drop]

/-- Helper: every response sent by the stream read loop carries
eof = false (a non-empty read of a regular file does not report
end-of-stream). -/
theorem streamEventsFuel_eof_false (p : String) (cs : Nat) :
    ∀ (fuel : Nat) (l : List Nat) (d : List Nat) (b : Bool),
      (d, b) ∈ sendsOf (streamEventsFuel p cs fuel l) → b = false := by
  intro fuel
  induction fuel with
  | zero =>
      intro l d b hmem
      cases l <;> simp [streamEventsFuel, sendsOf] at hmem
  | succ n ih =>
      intro l d b hmem
      cases l with
      | nil =>
          simp [streamEventsFuel, sendsOf] at hmem
      | cons c rest =>
          rw [show streamEventsFuel p cs (n + 1) (c :: rest) =
                Event.fsRead p (List.take cs (c :: rest)).length ::
                  Event.send (List.take cs (c :: rest)) false ::
                  streamEventsFuel p cs n (List.drop (cs - 1) rest) from rfl] at hmem
          simp only [sendsOf, List.filterMap_cons] at hmem
          simp only [List.mem_cons, Prod.mk.injEq] at hmem
          rcases hmem with ⟨_, hb⟩ | hmem
          · exact hb
          · exact ih (List.drop (cs - 1) rest) d b hmem

/-- Helper: the stream read loop's trace ends with the zero-byte read
that reported end-of-stream, for sufficient fuel. -/
theorem streamEventsFuel_getLast (p : String) (cs : Nat) :
    ∀ (fuel : Nat) (l : List Nat), l.length ≤ fuel →
      (streamEventsFuel p cs fuel l).getLast? = some (Event.fsRead p 0) := by
  intro fuel
  induction fuel with
  | zero =>
      intro l hl
      have hnil : l = [] := by
        cases l with
        | nil => rfl
        | cons c rest => simp at hl
      subst hnil
      simp [streamEventsFuel]
  | succ n ih =>
      intro l hl
      cases l with
      | nil => simp [streamEventsFuel]
      | cons c rest =>
          have hrec : (List.drop (cs - 1) rest).length ≤ n := by
            simp only [List.length_drop]
            simp only [List.length_cons] at hl
            omega
          have htail := ih (List.drop (cs - 1) rest) hrec
          have hne : streamEventsFuel p cs n (List.drop (cs - 1) rest) ≠ [] := by
            intro hnil
            rw [hnil] at htail
            simp at htail
          rw [show streamEventsFuel p cs (n + 1) (c :: rest) =
                Event.fsRead p (List.take cs (c :: rest)).length ::
                  Event.send (List.take cs (c :: rest)) false ::
                  streamEventsFuel p cs n (List.drop (cs - 1) rest) from rfl]
          rw [show Event.fsRead p (List.take cs (c :: rest)).length ::
                Event.send (List.take cs (c :: rest)) false ::
                  streamEventsFuel p cs n (List.drop (cs - 1) rest)
              = [Event.fsRead p (List.take cs (c :: rest)).length,
                  Event.send (List.take cs (c :: rest)) false] ++
                  streamEventsFuel p cs n (List.drop (cs - 1) rest) from rfl]
          rw [List.getLast?_append_of_ne_nil _ hne]
          exact htail

/-- C3 counterexample: streaming an admitted, readable two-byte file with
chunk_size 0 sends exactly one response, whose data is the whole file but
whose eof flag is false — the read of a regular file returns its bytes
without an end-of-stream indication, and the loop then terminates on the
following zero-byte read — so the claim that the last response sent
carries eof = true is false at this input. -/
theorem c3_stream_eof_counterexample :
    sendsOf (StreamFile [("/app/f", FsNode.file [104, 105] "" 0)] [] true
        ⟨"/app/f", 0, ["/app"]⟩).1 = [([104, 105], false)]
    ∧ (StreamFile [("/app/f", FsNode.file [104, 105] "" 0)] [] true
        ⟨"/app/f", 0, ["/app"]⟩).2 = none := by
  decide

/-- C3 amended: for an admitted, readable regular file, Stream with
chunk_size 0 behaves exactly as with chunk size 64 KiB (65536), succeeds,
and the concatenation of the data of all responses in send order equals
the file's contents byte for byte; the stream terminates after the
zero-byte read that reported end-of-stream (the trace's last event is
that read), and every response sent — the last included — carries
eof = false, because a non-empty read of a regular file does not report
end-of-stream. -/
theorem c3_stream_amended (fs : FS) (cfg roots : List String) (p : String)
    (contents : List Nat) (mode : String) (mtime : Int)
    (hfile : fsLookup fs p = some (.file contents mode mtime))
    (hallow : isPathAllowed p (if roots = [] then cfg else roots) = true) :
    StreamFile fs cfg true ⟨p, 0, roots⟩ = StreamFile fs cfg true ⟨p, 65536, roots⟩
    ∧ (StreamFile fs cfg true ⟨p, 0, roots⟩).2 = none
    ∧ sentData (StreamFile fs cfg true ⟨p, 0, roots⟩).1 = contents
    ∧ (∀ d b, (d, b) ∈ sendsOf (StreamFile fs cfg true ⟨p, 0, roots⟩).1 → b = false)
    ∧ ((StreamFile fs cfg true ⟨p, 0, roots⟩).1).getLast?
        = some (Event.fsRead p 0) := by
  have hzero : StreamFile fs cfg true ⟨p, 0, roots⟩
      = (Event.audit "StreamFile" p :: Event.fsOpen p ::
          streamEvents p 65536 contents, none) := by
    unfold StreamFile
    dsimp only
    simp [hallow, hfile, maxReadSize]
  have hbig : StreamFile fs cfg true ⟨p, 65536, roots⟩
      = (Event.audit "StreamFile" p :: Event.fsOpen p ::
          streamEvents p 65536 contents, none) := by
    unfold StreamFile
    dsimp only
    simp [hallow, hfile, maxReadSize]
  refine ⟨?_, ?_, ?_, ?_, ?_⟩
  · rw [hzero, hbig]
  · rw [hzero]
  · rw [hzero]
    show sentData (Event.audit "StreamFile" p :: Event.fsOpen p ::
      streamEvents p 65536 contents) = contents
    rw [show sentData (Event.audit "StreamFile" p :: Event.fsOpen p ::
          streamEvents p 65536 contents)
        = sentData (streamEvents p 65536 contents) from by simp [sentData, sendsOf]]
    exact streamEventsFuel_sentData p 65536 (by decide) contents.length contents le_rfl
  · rw [hzero]
    intro d b hmem
    rw [show sendsOf (Event.audit "StreamFile" p :: Event.fsOpen p ::
          streamEvents p 65536 contents)
        = sendsOf (streamEvents p 65536 contents) from by simp [sendsOf]] at hmem
    exact streamEventsFuel_eof_false p 65536 contents.length contents d b hmem
  · rw [hzero]
    have htail := streamEventsFuel_getLast p 65536 contents.length contents le_rfl
    have hne : streamEvents p 65536 contents ≠ [] := by
      intro hnil
      rw [show streamEvents p 65536 contents
            = streamEventsFuel p 65536 contents.length contents from rfl] at hnil
      rw [hnil] at htail
      simp at htail
    show (Event.audit "StreamFile" p :: Event.fsOpen p ::
      streamEvents p 65536 contents).getLast? = some (Event.fsRead p 0)
    rw [show Event.audit "StreamFile" p :: Event.fsOpen p ::
          streamEvents p 65536 contents
        = [Event.audit "StreamFile" p, Event.fsOpen p]
            ++ streamEvents p 65536 contents from rfl]
    rw [List.getLast?_append_of_ne_nil _ hne]
    exact htail

/-- C3 witness: the amended claim at a concrete two-byte file. -/
theorem c3_stream_amended_witness :
    sentData (StreamFile [("/app/g", FsNode.file [1, 2] "" 0)] [] true
        ⟨"/app/g", 0, ["/app"]⟩).1 = [1, 2] :=
  (c3_stream_amended [("/app/g", FsNode.file [1, 2] "" 0)] [] ["/app"]
    "/app/g" [1, 2] "" 0 rfl (by decide)).2.2.1
